import Mathlib

/-!
Verification development for the phoner phonotactic scheme checker.

The embedding mirrors the two source files:
  - scheme.rs : the line-oriented scheme parser (Scheme::parse, substitute_classes)
  - tests.rs  : the validation engine (validate_test) and the test runner (run_tests)

Rust strings are modelled as Lean String values; character iteration works on the
underlying character list.  Machine counters (the u32 fail counter, the usize
maximum word length) are modelled as Nat, since no quantity here approaches the
machine bounds.  Fallible operations return Except.  Functions that only trim or
classify characters use the ASCII notions (Char.isWhitespace, Char.isUpper); every
document examined below is ASCII, where the Rust Unicode notions agree.
-/

set_option autoImplicit false

/-- Whitespace trimming of a character list at both ends, the model of the Rust
str trim used throughout Scheme::parse. -/
def trimChars (l : List Char) : List Char :=
  ((l.dropWhile Char.isWhitespace).reverse.dropWhile Char.isWhitespace).reverse

/-- Split a character list at every newline character, the model of the Rust
lines iterator of the scheme file (a possible trailing carriage return or empty
final segment is later removed by trimming, exactly as in the source, which
trims every line before classifying it). -/
def splitLines : List Char → List (List Char)
  | [] => [[]]
  | c :: rest =>
    let r := splitLines rest
    if c = '\n' then [] :: r
    else
      match r with
      | [] => [[c]]
      | l :: ls => (c :: l) :: ls

/-- The lines of the scheme document, in order. -/
def linesOf (file : String) : List String :=
  (splitLines file.data).map String.mk

/-- Error enum for Scheme, from scheme.rs.  The regex compile failure carries
the offending pattern in place of the engine error value. -/
inductive ParseError where
  | unknownIntentIdentifier (c : Char)
  | unknownLineOperator (c : Char)
  | unknownClass (c : Char)
  | regexFail (pattern : String)
deriving DecidableEq

/-- Modelled from the spec: the external regular-expression collaborator (out of
scope for the core, spec section 1 and 6).  A compiled pattern keeps its pattern
text; the patterns arising in the claims are literal characters plus grouping
parentheses only, which is the fragment this model interprets. -/
structure Regex where
  pattern : String
deriving DecidableEq

/-- The literal characters a grouping-only pattern has to match in sequence:
the pattern text with the grouping parentheses dropped. -/
def Regex.literalChars (re : Regex) : List Char :=
  re.pattern.data.filter (fun c => !(c == '(' || c == ')'))

/-- Whether the character list pat occurs at the start of the second list. -/
def startsWithL : List Char → List Char → Bool
  | [], _ => true
  | _ :: _, [] => false
  | a :: as, b :: bs => a == b && startsWithL as bs

/-- Whether the character list pat occurs contiguously anywhere in the second
list. -/
def occursIn (pat : List Char) : List Char → Bool
  | [] => pat.isEmpty
  | c :: rest => startsWithL pat (c :: rest) || occursIn pat rest

/-- Modelled from the spec: unanchored matching of a compiled pattern against a
word (the collaborator can test a string for a match).  For a pattern of literal
characters and grouping parentheses this holds exactly when the parenthesis-free
literal sequence occurs as a contiguous substring of the word. -/
def Regex.is_match (re : Regex) (word : String) : Bool :=
  occursIn re.literalChars word.data

/-- Balanced-parenthesis check on a pattern, the failure mode of compilation the
literal-plus-grouping fragment exhibits. -/
def parensBal : List Char → Nat → Bool
  | [], d => d == 0
  | c :: rest, d =>
    if c = '(' then parensBal rest (d + 1)
    else if c = ')' then
      match d with
      | 0 => false
      | d' + 1 => parensBal rest d'
    else parensBal rest d

/-- Modelled from the spec: pattern compilation by the collaborator, which
either compiles a pattern string or fails (RegexFail aborts the parse, spec
section 4.1).  In the literal-plus-grouping fragment compilation fails exactly
on unbalanced parentheses. -/
def Regex.new (p : String) : Except ParseError Regex :=
  if parensBal p.data 0 then .ok { pattern := p } else .error (.regexFail p)

/-- Alias for the map of class name and value from scheme.rs; the HashMap is
modelled as an association list where the most recent insertion is found first,
matching HashMap insert-overwrite followed by get. -/
abbrev Classes := List (Char × String)

/-- HashMap get on the association-list model: the most recently inserted value
for the character, if any. -/
def classGet : Classes → Char → Option String
  | [], _ => none
  | (k, v) :: rest, c => if k = c then some v else classGet rest c

/-- Modelled from the spec: the test/note item type of the crate root (not
present under src/).  Scheme::parse only ever pushes test items; notes pass
through the runner unchanged (spec section 3). -/
inductive TestType where
  | note (text : String)
  | test (intent : Bool) (word : String)
deriving DecidableEq

/-- Alias for the ordered test list of a scheme. -/
abbrev Tests := List TestType

/-- Alias for the ordered rule list of a scheme, as built by Scheme::parse:
intent flag, compiled pattern, optional reason.  In scheme.rs the reason text
is stored directly in the rule triple (tests.rs resolves a carried reason
reference; with the text stored inline that resolution is the identity on the
attached text, see run_tests below). -/
abbrev Rules := List (Bool × Regex × Option String)

/-- A rule before class substitution and compilation: intent, raw pattern text,
optional reason, as buffered in rules_raw inside Scheme::parse. -/
abbrev RawRule := Bool × String × Option String

/-- Scheme parsed from file, from scheme.rs: holds rules and tests. -/
structure Scheme where
  rules : Rules
  tests : Tests
deriving DecidableEq

/-- The mutable builders of the line loop of Scheme::parse: the class table,
the test list, the buffered raw rules, the pending reason and whether that
reason is shared (declared with a double at sign). -/
structure LoopState where
  classes : Classes
  tests : Tests
  rulesRaw : List RawRule
  ruleReason : Option String
  isUsefulReason : Bool
deriving DecidableEq

/-- The builders at the start of Scheme::parse: all empty, no pending reason. -/
def initState : LoopState :=
  { classes := [], tests := [], rulesRaw := [], ruleReason := none, isUsefulReason := false }

/-- The class-definition arm of the line loop: a line starting with a dollar
sign defines the class named by the next character, valued at the trimmed
remainder; with no next character the line is skipped. -/
def doClassLine (st : LoopState) : List Char → LoopState
  | [] => st
  | name :: value => { st with classes := (name, String.mk (trimChars value)) :: st.classes }

/-- The reason arm of the line loop.  The source always advances the character
iterator once to test for a second at sign, and once more when that test
succeeds, before storing the trimmed remainder as the pending reason; a double
at sign marks the reason as shared. -/
def doReasonLine (st : LoopState) : List Char → LoopState
  | [] => { st with ruleReason := some (String.mk (trimChars [])), isUsefulReason := false }
  | c2 :: rest2 =>
    if c2 = '@' then
      { st with ruleReason := some (String.mk (trimChars (rest2.drop 1))), isUsefulReason := true }
    else
      { st with ruleReason := some (String.mk (trimChars rest2)), isUsefulReason := false }

/-- Removal of space characters from a pattern remainder: the source calls
replace of the one-character string consisting of a space by the empty string,
which deletes exactly the space characters and no other whitespace. -/
def removeSpacesL (l : List Char) : List Char :=
  l.filter (fun c => !(c == ' '))

/-- Buffer one raw rule: the remainder with spaces removed becomes the raw
pattern, the pending reason is attached, and a non-shared pending reason is
cleared afterwards. -/
def pushRuleRaw (st : LoopState) (intent : Bool) (rest2 : List Char) : LoopState :=
  { st with
    rulesRaw := st.rulesRaw ++ [(intent, String.mk (removeSpacesL rest2), st.ruleReason)],
    ruleReason := if st.isUsefulReason then st.ruleReason else none }

/-- The rule arm of the line loop: a plus intent means the pattern must match
for a word to be valid, a bang intent means a match makes the word invalid; any
other intent character is fatal, a missing one skips the line. -/
def doRuleLine (st : LoopState) : List Char → Except ParseError LoopState
  | [] => .ok st
  | i :: rest2 =>
    if i = '+' then .ok (pushRuleRaw st true rest2)
    else if i = '!' then .ok (pushRuleRaw st false rest2)
    else .error (.unknownIntentIdentifier i)

/-- Buffer one test: the trimmed remainder is the word; an empty word is
silently dropped. -/
def pushTestRaw (st : LoopState) (intent : Bool) (rest2 : List Char) : LoopState :=
  match trimChars rest2 with
  | [] => st
  | w => { st with tests := st.tests ++ [TestType.test intent (String.mk w)] }

/-- The test arm of the line loop, with the same intent grammar as rules. -/
def doTestLine (st : LoopState) : List Char → Except ParseError LoopState
  | [] => .ok st
  | i :: rest2 =>
    if i = '+' then .ok (pushTestRaw st true rest2)
    else if i = '!' then .ok (pushTestRaw st false rest2)
    else .error (.unknownIntentIdentifier i)

/-- The body of the line loop of Scheme::parse on one trimmed line: blank lines
and comment lines are skipped, the first character selects the arm, and an
unknown first character is a fatal error. -/
def parseLineCore (st : LoopState) : List Char → Except ParseError LoopState
  | [] => .ok st
  | first :: rest =>
    if first = '#' then .ok st
    else if first = '$' then .ok (doClassLine st rest)
    else if first = '@' then .ok (doReasonLine st rest)
    else if first = '&' then doRuleLine st rest
    else if first = '*' then doTestLine st rest
    else .error (.unknownLineOperator first)

/-- One iteration of the line loop: the raw line is trimmed, then classified. -/
def parseLine (st : LoopState) (l : String) : Except ParseError LoopState :=
  parseLineCore st (trimChars l.data)

/-- The line loop of Scheme::parse over the document lines in order, stopping
at the first error. -/
def parseLoop (st : LoopState) : List String → Except ParseError LoopState
  | [] => .ok st
  | l :: ls =>
    match parseLine st l with
    | .ok st1 => parseLoop st1 ls
    | .error e => .error e

/-- Replace every occurrence of one character by a replacement string, the
model of the Rust whole-string replace with a one-character pattern. -/
def replaceCharL : List Char → Char → List Char → List Char
  | [], _, _ => []
  | a :: rest, c, v => if a = c then v ++ replaceCharL rest c v else a :: replaceCharL rest c v

/-- The loop of substitute_classes: iterate over the characters of the original
raw pattern; at each uppercase character look the class up, failing if it is
absent, and otherwise replace every occurrence of that character in the current
working string by the value wrapped in parentheses. -/
def substGo (classes : Classes) : List Char → String → Except ParseError String
  | [], cur => .ok cur
  | ch :: rest, cur =>
    if ch.isUpper then
      match classGet classes ch with
      | some v => substGo classes rest (String.mk (replaceCharL cur.data ch ("(" ++ v ++ ")").data))
      | none => .error (.unknownClass ch)
    else substGo classes rest cur

/-- Substitute class names in a regex rule with class values, from scheme.rs. -/
def substitute_classes (rule : String) (classes : Classes) : Except ParseError String :=
  substGo classes rule.data rule

/-- The compile phase at the end of Scheme::parse: every buffered raw rule is
class-substituted and then compiled, in order, stopping at the first error. -/
def compileRules (classes : Classes) : List RawRule → Except ParseError Rules
  | [] => .ok []
  | (intent, rule, reason) :: rest =>
    match substitute_classes rule classes with
    | .error e => .error e
    | .ok p =>
      match Regex.new p with
      | .error e => .error e
      | .ok re =>
        match compileRules classes rest with
        | .error e => .error e
        | .ok rs => .ok ((intent, re, reason) :: rs)

/-- Parse Scheme from file, from scheme.rs: run the line loop over every line,
then substitute and compile every buffered rule. -/
def Scheme.parse (file : String) : Except ParseError Scheme :=
  match parseLoop initState (linesOf file) with
  | .error e => .error e
  | .ok st =>
    match compileRules st.classes st.rulesRaw with
    | .error e => .error e
    | .ok rules => .ok { rules := rules, tests := st.tests }

/-- Modelled from the spec: the validity verdict of the crate root (not present
under src/): a tagged value, either Valid or Invalid with an optional reason
(spec section 3); the reason is the attached text of the deciding rule, stored
inline as in the rule triples of scheme.rs. -/
inductive Validity where
  | valid
  | invalid (reason : Option String)
deriving DecidableEq

/-- Modelled from the spec: whether the engine says valid (the engine-says-valid
predicate of spec section 4.3), true exactly on the Valid verdict. -/
def Validity.is_valid : Validity → Bool
  | .valid => true
  | .invalid _ => false

/-- Check if a string is valid with the rules, from tests.rs: for each rule in
order, if the intent flag disagrees with the match outcome, return Invalid with
the reason of that rule at once; if no rule fires, the word is Valid. -/
def validate_test (word : String) : Rules → Validity
  | [] => .valid
  | (should_match, rule, reason_ref) :: rest =>
    if Bool.xor should_match (rule.is_match word) then .invalid reason_ref
    else validate_test word rest

/-- Reason for failure variants, from tests.rs. -/
inductive Reason where
  | passed
  | noReasonGiven
  | shouldNotHaveMatched
  | custom (text : String)
deriving DecidableEq

/-- Result of one test, or note, from tests.rs. -/
inductive ResultType where
  | note (text : String)
  | test (intent : Bool) (word : String) (pass : Bool) (reason : Reason)
deriving DecidableEq

/-- Results from the run_tests function, from tests.rs. -/
structure TestResults where
  list : List ResultType
  fail_count : Nat
  max_word_len : Nat
deriving DecidableEq

/-- Create empty TestResults, from tests.rs. -/
def TestResults.empty : TestResults :=
  { list := [], fail_count := 0, max_word_len := 0 }

/-- UTF-8 byte width of one character, the unit in which the Rust len of a word
is counted. -/
def charUtf8Len (c : Char) : Nat :=
  if c.toNat < 128 then 1
  else if c.toNat < 2048 then 2
  else if c.toNat < 65536 then 3
  else 4

/-- UTF-8 byte length of a word, the Rust len of the word string. -/
def strUtf8Len (s : String) : Nat :=
  s.data.foldl (fun n c => n + charUtf8Len c) 0

/-- The display reason derived for a failing test, from tests.rs: a Valid
verdict on a failing test means the word matched validity but should not have;
an Invalid verdict without attached reason gives the no-reason placeholder; an
attached reason resolves to its text (in tests.rs via the reason registry of
the crate root; with the text stored inline, resolution returns that text). -/
def failReason : Validity → Reason
  | .valid => .shouldNotHaveMatched
  | .invalid none => .noReasonGiven
  | .invalid (some s) => .custom s

/-- The loop of run_tests over the declared items in order, producing the
outcome list, the failure count and the maximum word length.  A note passes
through and touches neither counter; a test is validated, passes exactly when
the verdict validity does not differ from the declared intent, contributes one
to the failure count when failing, and raises the maximum word length to its
byte length when longer. -/
def runTestLoop (rules : Rules) : Tests → List ResultType × Nat × Nat
  | [] => ([], 0, 0)
  | TestType.note n :: rest =>
    let r := runTestLoop rules rest
    (ResultType.note n :: r.1, r.2.1, r.2.2)
  | TestType.test intent word :: rest =>
    let verdict := validate_test word rules
    let pass := !(Bool.xor verdict.is_valid intent)
    let reason := if pass then Reason.passed else failReason verdict
    let r := runTestLoop rules rest
    (ResultType.test intent word pass reason :: r.1,
     (if pass then 0 else 1) + r.2.1,
     Nat.max (strUtf8Len word) r.2.2)

/-- Run tests, return results, from tests.rs: with no tests the empty results
are returned immediately, otherwise the loop over the declared items runs. -/
def run_tests (scheme : Scheme) : TestResults :=
  if scheme.tests.length < 1 then TestResults.empty
  else
    let r := runTestLoop scheme.rules scheme.tests
    { list := r.1, fail_count := r.2.1, max_word_len := r.2.2 }

/-- Whether a rule disqualifies a word, in the wording of the validation claim:
a rule whose match invalidates (intent flag false, written with a bang) fires
when its pattern matches, and a rule requiring a match for validity (intent
flag true, written with a plus) fires when its pattern does not match. -/
def disqualifies (word : String) (r : Bool × Regex × Option String) : Bool :=
  (!r.1 && r.2.1.is_match word) || (r.1 && !(r.2.1.is_match word))

/-- Whether a trimmed line is a class definition for the given character: it
starts with a dollar sign immediately followed by that character. -/
def definesCoreB (t : List Char) (c : Char) : Bool :=
  match t with
  | f :: rest =>
    f == '$' &&
      (match rest with
       | [] => false
       | name :: _ => name == c)
  | [] => false

/-- Whether a raw document line defines the given class character. -/
def definesClassB (l : String) (c : Char) : Bool :=
  definesCoreB (trimChars l.data) c

/-- Whether no line of the document defines the given class character. -/
def noDefFor (file : String) (c : Char) : Bool :=
  (linesOf file).all (fun l => !(definesClassB l c))

/-- The pass flag of an outcome, when the outcome is a test. -/
def passOf : ResultType → Option Bool
  | ResultType.test _ _ p _ => some p
  | ResultType.note _ => none

/-- The pass flag a test item should receive according to the runner: none for
a note, and for a test whether the verdict validity equals the declared
intent. -/
def expectedPass (rules : Rules) : TestType → Option Bool
  | TestType.note _ => none
  | TestType.test intent word => some ((validate_test word rules).is_valid == intent)

/-- Whether a parse outcome is an unknown-class failure. -/
def isUnknownClassErr : Except ParseError Scheme → Bool
  | .error (.unknownClass _) => true
  | _ => false

instance {ε α : Type} [DecidableEq ε] [DecidableEq α] : DecidableEq (Except ε α) := fun a b =>
  match a, b with
  | .ok x, .ok y =>
    if h : x = y then .isTrue (congrArg Except.ok h)
    else .isFalse (fun hc => h (Except.ok.inj hc))
  | .error x, .error y =>
    if h : x = y then .isTrue (congrArg Except.error h)
    else .isFalse (fun hc => h (Except.error.inj hc))
  | .ok _, .error _ => .isFalse (fun hc => Except.noConfusion hc)
  | .error _, .ok _ => .isFalse (fun hc => Except.noConfusion hc)

theorem xor_eq_disqualifies (word : String) (b : Bool) (re : Regex) (rr : Option String) :
    Bool.xor b (re.is_match word) = disqualifies word (b, re, rr) := by
  cases hb : b <;> cases hm : re.is_match word <;> simp [disqualifies, hm]

/-- C1: the validation engine checks the rules strictly in document order and
returns Invalid carrying the reason of the first rule that disqualifies the
word — a rule whose match means invalid (intent flag false) and whose pattern
matches, or a rule requiring a match for validity (intent flag true) whose
pattern does not match — checking no rule beyond it; with no disqualifying rule
it returns Valid.  List.find? returns the first list entry satisfying the
predicate, so the reported reason is unique even when several rules are
violated. -/
theorem c1_engine_first_violation (rules : Rules) (word : String) :
    validate_test word rules =
      match rules.find? (disqualifies word) with
      | some r => Validity.invalid r.2.2
      | none => Validity.valid := by
  induction rules with
  | nil => rfl
  | cons r rest ih =>
    obtain ⟨b, re, rr⟩ := r
    have hx := xor_eq_disqualifies word b re rr
    by_cases h : disqualifies word (b, re, rr) = true
    · simp [validate_test, hx, h, List.find?]
    · have h' : disqualifies word (b, re, rr) = false := by
        cases hd : disqualifies word (b, re, rr)
        · rfl
        · exact absurd hd h
      simp [validate_test, hx, h', List.find?, ih]

theorem not_xor_eq_beq (a b : Bool) : (!(Bool.xor a b)) = (a == b) := by
  cases a <;> cases b <;> rfl

theorem runTestLoop_map_pass (rules : Rules) (ts : Tests) :
    (runTestLoop rules ts).1.map passOf = ts.map (expectedPass rules) := by
  induction ts with
  | nil => rfl
  | cons t rest ih =>
    cases t with
    | note n => simp [runTestLoop, passOf, expectedPass, ih]
    | test intent word => simp [runTestLoop, passOf, expectedPass, ih, not_xor_eq_beq]

theorem run_tests_list (rules : Rules) (ts : Tests) :
    (run_tests { rules := rules, tests := ts }).list = (runTestLoop rules ts).1 := by
  cases ts with
  | nil => rfl
  | cons t rest => rfl

/-- C2 (amended): in run_tests a test outcome carries pass = true exactly when
the verdict validity equals the declared intent — an intent-true test passes
when the engine says Valid, an intent-false test passes when the engine says
Invalid (the polarity is the reverse of the one the claim states, which the
counterexample shows); notes carry no pass flag.  The concrete half of the
claim holds as stated: with the single rule given by the rule line of plus
intent on pattern ab, the test line of plus intent on ab reports pass = true
and the test line of bang intent on ab reports pass = false. -/
theorem c2_pass_polarity_amended :
    (∀ (rules : Rules) (ts : Tests),
        (run_tests { rules := rules, tests := ts }).list.map passOf = ts.map (expectedPass rules))
    ∧ Scheme.parse "&+ab\n*+ab\n*!ab" =
        .ok { rules := [(true, { pattern := "ab" }, none)],
              tests := [TestType.test true "ab", TestType.test false "ab"] }
    ∧ run_tests { rules := [(true, { pattern := "ab" }, none)],
                  tests := [TestType.test true "ab", TestType.test false "ab"] } =
        { list := [ResultType.test true "ab" true Reason.passed,
                   ResultType.test false "ab" false Reason.shouldNotHaveMatched],
          fail_count := 1, max_word_len := 2 } := by
  refine ⟨?_, by decide, by decide⟩
  intro rules ts
  rw [run_tests_list]
  exact runTestLoop_map_pass rules ts

/-- C2 counterexample: the claim says a test with intent true (should be
invalid) passes when the engine returns Invalid.  In the scheme parsed from the
document with rule line of plus intent on ab and test line of plus intent on
xy, the engine returns Invalid on xy, yet the runner reports pass = false for
that intent-true test (the source computes pass from is_valid XOR intent, so an
intent-true test passes only on a Valid verdict). -/
theorem c2_pass_polarity_cex :
    Scheme.parse "&+ab\n*+xy" =
      .ok { rules := [(true, { pattern := "ab" }, none)],
            tests := [TestType.test true "xy"] } ∧
    validate_test "xy" [(true, { pattern := "ab" }, none)] = Validity.invalid none ∧
    run_tests { rules := [(true, { pattern := "ab" }, none)], tests := [TestType.test true "xy"] } =
      { list := [ResultType.test true "xy" false Reason.noReasonGiven],
        fail_count := 1, max_word_len := 2 } :=
  ⟨by decide, by decide, by decide⟩

/-- C3 (amended): a document defining class V as aeiou with one rule of plus
intent on pattern V parses successfully, and the compiled pattern is the class
value wrapped in parentheses — a grouping of the literal character sequence, not
an alternation — so it matches exactly the words containing aeiou as a
contiguous substring: it matches neither the word a nor the word b, while a
word containing aeiou does match. -/
theorem c3_class_grouping_amended :
    Scheme.parse "$Vaeiou\n&+V" =
      .ok { rules := [(true, { pattern := "(aeiou)" }, none)],
            tests := [] } ∧
    Regex.is_match { pattern := "(aeiou)" } "a" = false ∧
    Regex.is_match { pattern := "(aeiou)" } "b" = false ∧
    Regex.is_match { pattern := "(aeiou)" } "xaeiouy" = true :=
  ⟨by decide, by decide, by decide, by decide⟩

/-- C3 counterexample: the claim says the compiled rule pattern of the document
defining class V as aeiou matches the word a.  Parsing yields the pattern
consisting of aeiou wrapped in parentheses, and matching that pattern against
the word a yields false: a parenthesised sequence is a grouping, not an
alternation over the listed characters. -/
theorem c3_class_grouping_cex :
    Scheme.parse "$Vaeiou\n&+V" =
      .ok { rules := [(true, { pattern := "(aeiou)" }, none)],
            tests := [] } ∧
    Regex.is_match { pattern := "(aeiou)" } "a" = false :=
  ⟨by decide, by decide⟩

/-- C4 (amended): on a reason line the parser always consumes one character
after the leading at sign while testing for a second at sign, and one more
character when that test succeeds, before trimming and storing the remainder;
the stickiness is as claimed: a double-at reason stays attached to every
subsequent rule until replaced, a single-at reason attaches to the next rule
only.  Hence the double-at line with text shared reason attaches hared reason
to both following rules, the single-at line with text one-off attaches ne-off
to the first following rule only, and with a separating space after the marker
the intended texts shared and other attach. -/
theorem c4_reason_text_amended :
    Scheme.parse "@@shared reason\n&+a\n&+b" =
      .ok { rules := [(true, { pattern := "a" }, some "hared reason"),
                      (true, { pattern := "b" }, some "hared reason")], tests := [] } ∧
    Scheme.parse "@one-off\n&+a\n&+b" =
      .ok { rules := [(true, { pattern := "a" }, some "ne-off"),
                      (true, { pattern := "b" }, none)], tests := [] } ∧
    Scheme.parse "@@ shared\n&+a\n&+b\n@ other\n&+c" =
      .ok { rules := [(true, { pattern := "a" }, some "shared"),
                      (true, { pattern := "b" }, some "shared"),
                      (true, { pattern := "c" }, some "other")], tests := [] } :=
  ⟨by decide, by decide, by decide⟩

/-- C4 counterexample: the claim says the double-at line whose text is shared
reason attaches exactly the text shared reason to both following rules.  The
parser stores hared reason instead (the character test for the second at sign
consumes the s), which differs from shared reason. -/
theorem c4_reason_text_cex :
    Scheme.parse "@@shared reason\n&+a\n&+b" =
      .ok { rules := [(true, { pattern := "a" }, some "hared reason"),
                      (true, { pattern := "b" }, some "hared reason")], tests := [] } ∧
    ("hared reason" == "shared reason") = false :=
  ⟨by decide, by decide⟩

/-- C6 (amended): the raw pattern stored for a rule line equals the remainder
after the intent character with all space characters removed; other whitespace
is kept — the source replaces only the one-character string consisting of a
space — so an internal tab survives (leading and trailing whitespace of the
whole line was already removed by the line trim). -/
theorem c6_space_stripping_amended :
    (∀ (st : LoopState) (rest : List Char),
        parseLineCore st ('&' :: '+' :: rest) = .ok (pushRuleRaw st true rest) ∧
        (pushRuleRaw st true rest).rulesRaw =
          st.rulesRaw ++ [(true, String.mk (rest.filter (fun c => !(c == ' '))), st.ruleReason)]) ∧
    parseLoop initState ["&+a\tb"] = .ok { initState with rulesRaw := [(true, "a\tb", none)] } ∧
    parseLoop initState ["&+ a\tb c"] = .ok { initState with rulesRaw := [(true, "a\tbc", none)] } := by
  exact ⟨fun st rest => ⟨rfl, rfl⟩, by decide, by decide⟩

/-- C6 counterexample: the claim says all whitespace characters, including
internal tabs, are removed from the remainder of a rule line.  The rule line
whose remainder is the letter a, a tab and the letter b stores the raw pattern
with the tab still present, which differs from the two-letter pattern ab. -/
theorem c6_space_stripping_cex :
    parseLoop initState ["&+a\tb"] = .ok { initState with rulesRaw := [(true, "a\tb", none)] } ∧
    ("a\tb" == "ab") = false :=
  ⟨by decide, by decide⟩

/-- C7 (amended): each occurrence of an uppercase letter in the original raw
pattern triggers one whole-string replacement of that letter by its
parenthesised class value, and the substituted output is never re-scanned on
its own.  Consequently an uppercase letter introduced by a class value survives
when it has no occurrence of its own later in the original pattern (first
conjunct: U introduced by the value of V stays), a duplicated letter whose
value does not reintroduce it is effectively handled by the first replacement
(second conjunct), but a letter introduced by a value is substituted after all
when the same letter has a later occurrence in the original pattern (third
conjunct), and a self-reintroducing value is expanded again at each duplicate
(fourth conjunct). -/
theorem c7_substitution_rescan_amended :
    substitute_classes "V" [('V', "aU"), ('U', "b")] = .ok "(aU)" ∧
    substitute_classes "VV" [('V', "aeiou")] = .ok "(aeiou)(aeiou)" ∧
    substitute_classes "VU" [('V', "aU"), ('U', "b")] = .ok "(a(b))(b)" ∧
    substitute_classes "VV" [('V', "Vx")] = .ok "((Vx)x)((Vx)x)" :=
  ⟨by decide, by decide, by decide, by decide⟩

/-- C7 counterexample: the claim says an uppercase letter introduced into the
pattern by a substituted class value is never itself substituted.  Substituting
the pattern VU with V valued aU and U valued b first rewrites the pattern to aU
in parentheses followed by U, and the replacement for the original U then also
rewrites the U that the value of V introduced: the result contains no U at
all. -/
theorem c7_substitution_rescan_cex :
    substitute_classes "VU" [('V', "aU"), ('U', "b")] = .ok "(a(b))(b)" ∧
    ("(a(b))(b)".data.contains 'U') = false :=
  ⟨by decide, by decide⟩

/-- C8: parsing and running are deterministic — both are pure functions of the
document text, so two parses of the same text yield equal schemes and equal
TestResults (same ordered outcome list, failure count and maximum word
length). -/
theorem c8_deterministic_run (file : String) (s1 s2 : Scheme)
    (h1 : Scheme.parse file = .ok s1) (h2 : Scheme.parse file = .ok s2) :
    s1 = s2 ∧ run_tests s1 = run_tests s2 := by
  rw [h1] at h2
  have h : s1 = s2 := Except.ok.inj h2
  exact ⟨h, by rw [h]⟩

theorem c8_deterministic_run_witness :
    ({ rules := [(true, { pattern := "ab" }, none)], tests := [TestType.test true "ab"] } : Scheme) =
      { rules := [(true, { pattern := "ab" }, none)], tests := [TestType.test true "ab"] } ∧
    run_tests { rules := [(true, { pattern := "ab" }, none)], tests := [TestType.test true "ab"] } =
      run_tests { rules := [(true, { pattern := "ab" }, none)], tests := [TestType.test true "ab"] } :=
  c8_deterministic_run "&+ab\n*+ab" _ _ (by decide) (by decide)

/-- C9: with zero tests the runner immediately returns the empty report: empty
outcome list, zero failures, zero maximum word length. -/
theorem c9_empty_tests (s : Scheme) (h : s.tests = []) :
    run_tests s = { list := [], fail_count := 0, max_word_len := 0 } := by
  simp [run_tests, h, TestResults.empty]

theorem c9_empty_tests_witness :
    Scheme.parse "# note\n$Vaeiou\n@ r" = .ok { rules := [], tests := [] } ∧
    run_tests { rules := [], tests := [] } = { list := [], fail_count := 0, max_word_len := 0 } :=
  ⟨by decide, c9_empty_tests { rules := [], tests := [] } rfl⟩

/-- C10: a line consisting of only a dollar sign is skipped without error and
without touching the builders (in particular the class table), and likewise a
line consisting of only a test star; an unknown leading character, by contrast,
is a fatal unknown-line-operator error. -/
theorem c10_silent_skip_lines :
    parseLoop initState ["$Vx", "$", "*"] = parseLoop initState ["$Vx"] ∧
    Scheme.parse "$\n*\n#c" = .ok { rules := [], tests := [] } ∧
    Scheme.parse "$Vx\n%" = .error (.unknownLineOperator '%') :=
  ⟨by decide, by decide, by decide⟩

theorem classGet_cons_isSome (k : Char) (v : String) (cs : Classes) (c : Char)
    (h : (classGet cs c).isSome = true) : (classGet ((k, v) :: cs) c).isSome = true := by
  by_cases hk : k = c <;> simp [classGet, hk, h]

theorem pushTestRaw_classes (st : LoopState) (intent : Bool) (rest2 : List Char) :
    (pushTestRaw st intent rest2).classes = st.classes := by
  cases htw : trimChars rest2 <;> simp [pushTestRaw, htw]

theorem doReasonLine_classes (st : LoopState) (rest : List Char) :
    (doReasonLine st rest).classes = st.classes := by
  cases rest with
  | nil => rfl
  | cons c2 rest2 => by_cases h : c2 = '@' <;> simp [doReasonLine, h]

theorem doRuleLine_classes (st st' : LoopState) (rest : List Char)
    (h : doRuleLine st rest = .ok st') : st'.classes = st.classes := by
  cases rest with
  | nil =>
    injection h with h2
    subst h2
    rfl
  | cons i rest2 =>
    by_cases h1 : i = '+'
    · simp only [doRuleLine, if_pos h1] at h
      injection h with h2
      subst h2
      rfl
    · by_cases h2 : i = '!'
      · simp only [doRuleLine, if_neg h1, if_pos h2] at h
        injection h with h3
        subst h3
        rfl
      · simp only [doRuleLine, if_neg h1, if_neg h2] at h
        exact Except.noConfusion h

theorem doTestLine_classes (st st' : LoopState) (rest : List Char)
    (h : doTestLine st rest = .ok st') : st'.classes = st.classes := by
  cases rest with
  | nil =>
    injection h with h2
    subst h2
    rfl
  | cons i rest2 =>
    by_cases h1 : i = '+'
    · simp only [doTestLine, if_pos h1] at h
      injection h with h2
      subst h2
      exact pushTestRaw_classes st true rest2
    · by_cases h2 : i = '!'
      · simp only [doTestLine, if_neg h1, if_pos h2] at h
        injection h with h3
        subst h3
        exact pushTestRaw_classes st false rest2
      · simp only [doTestLine, if_neg h1, if_neg h2] at h
        exact Except.noConfusion h

theorem parseLineCore_classes_shape (st st' : LoopState) (t : List Char)
    (h : parseLineCore st t = .ok st') :
    (st'.classes = st.classes ∧ ∀ x, definesCoreB t x = false) ∨
    (∃ name v, st'.classes = (name, v) :: st.classes ∧ ∀ x, definesCoreB t x = (name == x)) := by
  cases t with
  | nil =>
    injection h with h2
    subst h2
    exact Or.inl ⟨rfl, fun x => rfl⟩
  | cons first rest =>
    simp only [parseLineCore] at h
    by_cases h1 : first = '#'
    · rw [if_pos h1] at h
      injection h with h2
      subst h2
      subst h1
      exact Or.inl ⟨rfl, fun x => rfl⟩
    · rw [if_neg h1] at h
      by_cases h2 : first = '$'
      · rw [if_pos h2] at h
        injection h with h3
        subst h3
        subst h2
        cases rest with
        | nil => exact Or.inl ⟨rfl, fun x => rfl⟩
        | cons name value =>
          exact Or.inr ⟨name, String.mk (trimChars value), rfl, fun x => rfl⟩
      · rw [if_neg h2] at h
        have hfal : ∀ x, definesCoreB (first :: rest) x = false := by
          intro x
          have hb : (first == '$') = false := by
            cases hh : first == '$'
            · rfl
            · exact absurd (eq_of_beq hh) h2
          simp [definesCoreB, hb]
        refine Or.inl ⟨?_, hfal⟩
        by_cases h3 : first = '@'
        · rw [if_pos h3] at h
          injection h with h4
          subst h4
          exact doReasonLine_classes st rest
        · rw [if_neg h3] at h
          by_cases h4 : first = '&'
          · rw [if_pos h4] at h
            exact doRuleLine_classes st st' rest h
          · rw [if_neg h4] at h
            by_cases h5 : first = '*'
            · rw [if_pos h5] at h
              exact doTestLine_classes st st' rest h
            · rw [if_neg h5] at h
              exact Except.noConfusion h

theorem parseLine_classes_shape (st st' : LoopState) (l : String)
    (h : parseLine st l = .ok st') :
    (st'.classes = st.classes ∧ ∀ x, definesClassB l x = false) ∨
    (∃ name v, st'.classes = (name, v) :: st.classes ∧ ∀ x, definesClassB l x = (name == x)) :=
  parseLineCore_classes_shape st st' (trimChars l.data) h

theorem parseLoop_classes_mono (ls : List String) (st st' : LoopState)
    (h : parseLoop st ls = .ok st') (c : Char)
    (hc : (classGet st.classes c).isSome = true) :
    (classGet st'.classes c).isSome = true := by
  induction ls generalizing st with
  | nil =>
    injection h with h2
    subst h2
    exact hc
  | cons l ls ih =>
    simp only [parseLoop] at h
    cases hp : parseLine st l with
    | error e =>
      rw [hp] at h
      exact Except.noConfusion h
    | ok st1 =>
      rw [hp] at h
      refine ih st1 h ?_
      rcases parseLine_classes_shape st st1 l hp with ⟨he, _⟩ | ⟨name, v, he, _⟩
      · rw [he]; exact hc
      · rw [he]; exact classGet_cons_isSome name v st.classes c hc

theorem parseLoop_classes_src (ls : List String) (st st' : LoopState)
    (h : parseLoop st ls = .ok st') (c : Char)
    (hc : (classGet st'.classes c).isSome = true) :
    (classGet st.classes c).isSome = true ∨ ∃ l, l ∈ ls ∧ definesClassB l c = true := by
  induction ls generalizing st with
  | nil =>
    injection h with h2
    subst h2
    exact Or.inl hc
  | cons l ls ih =>
    simp only [parseLoop] at h
    cases hp : parseLine st l with
    | error e =>
      rw [hp] at h
      exact Except.noConfusion h
    | ok st1 =>
      rw [hp] at h
      rcases ih st1 h with h1 | ⟨l0, hl0, hd⟩
      · rcases parseLine_classes_shape st st1 l hp with ⟨he, _⟩ | ⟨name, v, he, hdef⟩
        · rw [he] at h1
          exact Or.inl h1
        · by_cases hnc : name = c
          · refine Or.inr ⟨l, List.mem_cons_self l ls, ?_⟩
            rw [hdef c]
            exact beq_iff_eq.mpr hnc
          · rw [he] at h1
            simp only [classGet] at h1
            rw [if_neg hnc] at h1
            exact Or.inl h1
      · exact Or.inr ⟨l0, List.mem_cons_of_mem l hl0, hd⟩

theorem parseLoop_defines (ls : List String) (st st' : LoopState)
    (h : parseLoop st ls = .ok st') (c : Char) (l0 : String)
    (hl0 : l0 ∈ ls) (hd : definesClassB l0 c = true) :
    (classGet st'.classes c).isSome = true := by
  induction ls generalizing st with
  | nil => exact absurd hl0 (List.not_mem_nil l0)
  | cons l ls ih =>
    simp only [parseLoop] at h
    cases hp : parseLine st l with
    | error e =>
      rw [hp] at h
      exact Except.noConfusion h
    | ok st1 =>
      rw [hp] at h
      rcases List.mem_cons.mp hl0 with rfl | hmem
      · rcases parseLine_classes_shape st st1 l0 hp with ⟨he, hfal⟩ | ⟨name, v, he, hdef⟩
        · rw [hfal c] at hd
          exact Bool.noConfusion hd
        · have hnc : (name == c) = true := by
            rw [← hdef c]
            exact hd
          have hs1 : (classGet st1.classes c).isSome = true := by
            rw [he]
            simp only [classGet]
            rw [if_pos (eq_of_beq hnc)]
            rfl
          exact parseLoop_classes_mono ls st1 st' h c hs1
      · exact ih st1 h hmem

theorem substGo_ok_defined (classes : Classes) (l : List Char) :
    ∀ (cur out : String), substGo classes l cur = .ok out →
      ∀ c, c ∈ l → c.isUpper = true → (classGet classes c).isSome = true := by
  induction l with
  | nil =>
    intro cur out h c hc hu
    exact absurd hc (List.not_mem_nil c)
  | cons ch rest ih =>
    intro cur out h c hc hu
    simp only [substGo] at h
    by_cases hup : ch.isUpper = true
    · rw [if_pos hup] at h
      cases hg : classGet classes ch with
      | none =>
        rw [hg] at h
        exact Except.noConfusion h
      | some v =>
        rw [hg] at h
        rcases List.mem_cons.mp hc with rfl | hmem
        · rw [hg]; rfl
        · exact ih _ _ h c hmem hu
    · rw [if_neg hup] at h
      rcases List.mem_cons.mp hc with rfl | hmem
      · exact absurd hu hup
      · exact ih _ _ h c hmem hu

theorem substGo_err_shape (classes : Classes) (l : List Char) :
    ∀ (cur : String) (e : ParseError), substGo classes l cur = .error e →
      ∃ c, e = ParseError.unknownClass c ∧ c.isUpper = true ∧ classGet classes c = none := by
  induction l with
  | nil =>
    intro cur e h
    exact Except.noConfusion h
  | cons ch rest ih =>
    intro cur e h
    simp only [substGo] at h
    by_cases hup : ch.isUpper = true
    · rw [if_pos hup] at h
      cases hg : classGet classes ch with
      | none =>
        rw [hg] at h
        injection h with h2
        exact ⟨ch, h2.symm, hup, hg⟩
      | some v =>
        rw [hg] at h
        exact ih _ _ h
    · rw [if_neg hup] at h
      exact ih _ _ h

theorem compileRules_ok_defined (classes : Classes) (rr : List RawRule) :
    ∀ rules, compileRules classes rr = .ok rules →
      ∀ r, r ∈ rr → ∀ c, c ∈ (r.2.1).data → c.isUpper = true →
        (classGet classes c).isSome = true := by
  induction rr with
  | nil =>
    intro rules h r hr
    exact absurd hr (List.not_mem_nil r)
  | cons r0 rest ih =>
    intro rules h r hr c hc hu
    obtain ⟨intent, rule, reason⟩ := r0
    simp only [compileRules] at h
    cases hs : substitute_classes rule classes with
    | error e =>
      simp only [hs] at h
      exact Except.noConfusion h
    | ok p =>
      cases hn : Regex.new p with
      | error e =>
        simp only [hs, hn] at h
        exact Except.noConfusion h
      | ok re =>
        cases hcr : compileRules classes rest with
        | error e =>
          simp only [hs, hn, hcr] at h
          exact Except.noConfusion h
        | ok rs =>
          rcases List.mem_cons.mp hr with rfl | hmem
          · exact substGo_ok_defined classes rule.data _ _ hs c hc hu
          · exact ih rs hcr r hmem c hc hu

theorem compileRules_err_shape (classes : Classes) (rr : List RawRule) :
    ∀ e, compileRules classes rr = .error e →
      (∃ p, e = ParseError.regexFail p) ∨
      (∃ c, e = ParseError.unknownClass c ∧ c.isUpper = true ∧ classGet classes c = none) := by
  induction rr with
  | nil =>
    intro e h
    exact Except.noConfusion h
  | cons r0 rest ih =>
    intro e h
    obtain ⟨intent, rule, reason⟩ := r0
    simp only [compileRules] at h
    cases hs : substitute_classes rule classes with
    | error e2 =>
      simp only [hs] at h
      injection h with h2
      subst h2
      exact Or.inr (substGo_err_shape classes rule.data rule e2 hs)
    | ok p =>
      cases hn : Regex.new p with
      | error e2 =>
        simp only [hs, hn] at h
        injection h with h2
        subst h2
        have he2 : e2 = ParseError.regexFail p := by
          unfold Regex.new at hn
          by_cases hb : parensBal p.data 0 = true
          · rw [if_pos hb] at hn
            exact Except.noConfusion hn
          · rw [if_neg hb] at hn
            injection hn with h3
            exact h3.symm
        exact Or.inl ⟨p, he2⟩
      | ok re =>
        cases hcr : compileRules classes rest with
        | error e2 =>
          simp only [hs, hn, hcr] at h
          injection h with h2
          subst h2
          exact ih e2 hcr
        | ok rs =>
          simp only [hs, hn, hcr] at h
          exact Except.noConfusion h

/-- C5 (amended): if the line loop scans a document without error and some
buffered raw rule contains an uppercase letter with no class definition on any
line of the document, then parsing returns no scheme: it fails with some error,
and that error is either an unknown-class error naming an uppercase letter that
no line of the document defines, or a compile failure of an earlier rule (rules
are substituted and compiled in order, so an earlier compile failure can mask
the unknown class).  The second conjunct shows the main case concretely: a lone
rule referencing the undefined class X fails with the unknown-class error for X.
The third conjunct shows the converse direction of the claim: a class
definition placed after the rule that references it does resolve, because
substitution happens once, after the whole document has been scanned. -/
theorem c5_unknown_class_amended :
    (∀ (file : String) (st : LoopState),
        parseLoop initState (linesOf file) = .ok st →
        ∀ r, r ∈ st.rulesRaw → ∀ c, c ∈ (r.2.1).data → c.isUpper = true →
        noDefFor file c = true →
        ∃ e, Scheme.parse file = .error e ∧
          ((∃ p, e = ParseError.regexFail p) ∨
           (∃ c2, e = ParseError.unknownClass c2 ∧ c2.isUpper = true ∧ noDefFor file c2 = true))) ∧
    Scheme.parse "&+X" = .error (.unknownClass 'X') ∧
    Scheme.parse "&+V\n$Vaeiou" =
      .ok { rules := [(true, { pattern := "(aeiou)" }, none)],
            tests := [] } := by
  refine ⟨?_, by decide, by decide⟩
  intro file st hloop r hr c hc hu hnd
  have hnone : (classGet st.classes c).isSome = false := by
    cases hq : (classGet st.classes c).isSome with
    | false => rfl
    | true =>
      rcases parseLoop_classes_src (linesOf file) initState st hloop c hq with h0 | ⟨l, hl, hdl⟩
      · exact Bool.noConfusion h0
      · have hx := List.all_eq_true.mp hnd l hl
        rw [hdl] at hx
        exact Bool.noConfusion hx
  have hcomp : ∀ rules, compileRules st.classes st.rulesRaw ≠ .ok rules := by
    intro rules hok
    have hy := compileRules_ok_defined st.classes st.rulesRaw rules hok r hr c hc hu
    rw [hy] at hnone
    exact Bool.noConfusion hnone
  obtain ⟨e, he⟩ : ∃ e, compileRules st.classes st.rulesRaw = .error e := by
    cases hc2 : compileRules st.classes st.rulesRaw with
    | ok rules => exact absurd hc2 (hcomp rules)
    | error e => exact ⟨e, rfl⟩
  refine ⟨e, ?_, ?_⟩
  · simp only [Scheme.parse, hloop, he]
  · rcases compileRules_err_shape st.classes st.rulesRaw e he with ⟨p, hp⟩ | ⟨c2, he2, hu2, hn2⟩
    · exact Or.inl ⟨p, hp⟩
    · refine Or.inr ⟨c2, he2, hu2, ?_⟩
      refine List.all_eq_true.mpr ?_
      intro l hl
      cases hd : definesClassB l c2 with
      | false => rfl
      | true =>
        have hz := parseLoop_defines (linesOf file) initState st hloop c2 l hl hd
        rw [hn2] at hz
        exact Bool.noConfusion hz

theorem c5_unknown_class_witness :
    ∃ e, Scheme.parse "&+X" = .error e ∧
      ((∃ p, e = ParseError.regexFail p) ∨
       (∃ c2, e = ParseError.unknownClass c2 ∧ c2.isUpper = true ∧ noDefFor "&+X" c2 = true)) :=
  c5_unknown_class_amended.1 "&+X"
    { classes := [], tests := [], rulesRaw := [(true, "X", none)],
      ruleReason := none, isUsefulReason := false }
    (by decide) (true, "X", none) (by decide) 'X' (by decide) (by decide) (by decide)

/-- C5 counterexample: the claim says that every document in which some rule
pattern contains an undefined uppercase letter fails with an unknown-class
error.  The document whose first line is the rule referencing the undefined
class X and whose second line starts with a tilde fails with the
unknown-line-operator error instead: the line loop aborts before class
substitution ever runs, so the reported error is not an unknown-class error. -/
theorem c5_unknown_class_cex :
    Scheme.parse "&+X\n~" = .error (.unknownLineOperator '~') ∧
    isUnknownClassErr (Scheme.parse "&+X\n~") = false :=
  ⟨by decide, by decide⟩
